import Mathlib

/-!
Verification of the library synchronization and merge engine
(`apps/readest-app/src/app/library/hooks/useBooksSync.ts`).

Book records are shallowly embedded as a structure with the fields the merge
logic touches; optional JS fields become `Option` values (`none` = the key is
absent / `undefined`).  JS object spread `{...base, ...overlay}` becomes
`spread`, where a field present in the overlay wins and an absent overlay field
keeps the base value.  JS truthiness of an optional numeric timestamp is
`truthy` (absent and `0` are falsy).  `downloadBookCovers` is an external
collaborator whose only specified effect is fetching image bytes; it is
modelled as not changing record fields, and in the failure-aware model
(`updateLibraryRun`) as a call that can throw per batch.
-/

namespace BooksSync

/-- One library entry (`Book` from `@/types/book`), restricted to the fields
the sync/merge engine reads or writes. -/
structure Book where
  hash : String
  updatedAt : Int
  title : Option String
  progress : Option Int
  deletedAt : Option Int
  uploadedAt : Option Int
  coverDownloadedAt : Option Int
  coverImageUrl : Option String
deriving DecidableEq, Repr

/-- JS truthiness of an optional numeric field: `undefined` and `0` are falsy. -/
def truthy : Option Int → Bool
  | none => false
  | some n => n != 0

/-- One field of a JS object spread `{...base, ...overlay}`: the overlay's
value wins when the key is present, otherwise the base's value is kept. -/
def ov {α : Type} : Option α → Option α → Option α
  | a, none => a
  | _, some x => some x

/-- JS object spread `{...base, ...overlay}` on two book records. -/
def spread (base overlay : Book) : Book where
  hash := overlay.hash
  updatedAt := overlay.updatedAt
  title := ov base.title overlay.title
  progress := ov base.progress overlay.progress
  deletedAt := ov base.deletedAt overlay.deletedAt
  uploadedAt := ov base.uploadedAt overlay.uploadedAt
  coverDownloadedAt := ov base.coverDownloadedAt overlay.coverDownloadedAt
  coverImageUrl := ov base.coverImageUrl overlay.coverImageUrl

/-- `book.coverImageUrl = await appService?.generateCoverImageUrl(book)`:
the cover-URL assignment done by `processOldBook` / `processNewBook`, with the
collaborator `generateCoverImageUrl` passed in as `g`. -/
def hyd (g : Book → Option String) (b : Book) : Book :=
  { b with coverImageUrl := g b }

/-- `!matchingBook.deletedAt && matchingBook.uploadedAt && !oldBook.coverDownloadedAt`
(useBooksSync.ts line 93): should the matched local record be cover-hydrated. -/
def hydCond (m b : Book) : Bool :=
  !truthy m.deletedAt && truthy m.uploadedAt && !truthy b.coverDownloadedAt

/-- The field merge of a matched pair (useBooksSync.ts lines 96-99):
`matchingBook.updatedAt > oldBook.updatedAt ? {...oldBook, ...matchingBook} : {...matchingBook, ...oldBook}`. -/
def mergeBook (m b : Book) : Book :=
  if m.updatedAt > b.updatedAt then spread b m else spread m b

/-- `processOldBook` (useBooksSync.ts lines 90-103): find the matching synced
record by hash, optionally hydrate the local record's cover, then field-merge. -/
def processOldBook (g : Book → Option String) (synced : List Book) (b : Book) : Book :=
  match synced.find? (fun nb => nb.hash == b.hash) with
  | some m => mergeBook m (if hydCond m b then hyd g b else b)
  | none => b

/-- Stable insertion of a record into a list ascending by `updatedAt`. -/
def insertByUpdatedAt (x : Book) : List Book → List Book
  | [] => [x]
  | y :: ys =>
    if x.updatedAt ≤ y.updatedAt then x :: y :: ys else y :: insertByUpdatedAt x ys

/-- `syncedBooks.sort((a, b) => a.updatedAt - b.updatedAt)` (line 83): stable
ascending sort by `updatedAt`. -/
def sortByUpdatedAt : List Book → List Book
  | [] => []
  | x :: xs => insertByUpdatedAt x (sortByUpdatedAt xs)

/-- The newly-arrived records (useBooksSync.ts lines 111-116): synced records
whose hash is absent from the updated library (`bookHashesInLibrary`, computed
once before any append), already uploaded and not tombstoned. -/
def newBooksOf (g : Book → Option String) (library synced : List Book) : List Book :=
  (sortByUpdatedAt synced).filter (fun nb =>
    !(((library.map (processOldBook g (sortByUpdatedAt synced))).map
        (fun b => b.hash)).contains nb.hash)
      && truthy nb.uploadedAt && !truthy nb.deletedAt)

/-- The new-record hydration loop (useBooksSync.ts lines 127-135), batch size
10: per batch, hydrate covers, append the batch to the working library, and
publish `(min((i + batchSize) / newBooks.length, 1), library snapshot length)`.
Recursion is fuelled; fuel `≥ remaining.length` suffices since every step
consumes at least one record. -/
def hydrateNewAux (g : Book → Option String) (total : Nat) :
    Nat → Nat → List Book → List Book → List Book × List (ℚ × Nat)
  | 0, _, acc, _ => (acc, [])
  | fuel + 1, i, acc, rem =>
    if rem.isEmpty then (acc, [])
    else
      let acc2 := acc ++ (rem.take 10).map (hyd g)
      let prog : ℚ := min (((i + 10 : Nat) : ℚ) / (total : ℚ)) 1
      let next := hydrateNewAux g total fuel (i + 10) acc2 (rem.drop 10)
      (next.1, (prog, acc2.length) :: next.2)

/-- `updateLibrary` (useBooksSync.ts lines 78-143), happy path: sort the synced
batch, merge matched records in place, append hydrated new records in batches
of 10, returning the final library and the published (progress, library-length)
snapshots. -/
def updateLibrary (g : Book → Option String) (library syncedBooks : List Book) :
    List Book × List (ℚ × Nat) :=
  if syncedBooks.isEmpty then (library, [])
  else
    hydrateNewAux g (newBooksOf g library syncedBooks).length
      (newBooksOf g library syncedBooks).length 0
      (library.map (processOldBook g (sortByUpdatedAt syncedBooks)))
      (newBooksOf g library syncedBooks)

/-- The "changed since cursor" selection predicate (useBooksSync.ts line 21):
`lastSyncedAtBooks < book.updatedAt || lastSyncedAtBooks < (book.deletedAt ?? 0)`. -/
def bookChanged (c : Int) (b : Book) : Bool :=
  decide (c < b.updatedAt) || decide (c < b.deletedAt.getD 0)

/-- The records selected as locally changed since the cursor. -/
def getNewBooksSel (c : Int) (library : List Book) : List Book :=
  library.filter (bookChanged c)

/-- `getNewBooks` (useBooksSync.ts lines 17-27): `{}` (here `none`) without a
user, otherwise the selected books together with the cursor. -/
def getNewBooks (user : Bool) (lastSyncedAt : Int) (library : List Book) :
    Option (List Book × Int) :=
  if user then some (getNewBooksSel lastSyncedAt library, lastSyncedAt) else none

/-- The body of `handleAutoSync` (useBooksSync.ts lines 46-51): compute the
selection and call `syncBooks(newBooks.books, 'both')` when
`newBooks.lastSyncedAt` is truthy; `some payload` = a gateway call with that
payload, `none` = no call. -/
def handleAutoSync (user : Bool) (lastSyncedAt : Int) (library : List Book) :
    Option (List Book) :=
  match getNewBooks user lastSyncedAt library with
  | none => none
  | some (books, c) => if c != 0 then some books else none

/-- State of the pull controller: the `isPullingRef` latch and the number of
gateway (`syncBooks`) invocations so far. -/
structure PullState where
  pulling : Bool
  calls : Nat
deriving DecidableEq, Repr

/-- The synchronous prefix of `pullLibrary` (useBooksSync.ts lines 29-37), up
to the suspension at `await syncBooks([], 'pull')`: no-op without a user or
when the latch is held, otherwise raise the latch and invoke the gateway.
The boolean reports whether a pull was actually started. -/
def pullEnter (user : Bool) (s : PullState) : PullState × Bool :=
  if user = false then (s, false)
  else if s.pulling then (s, false)
  else ({ pulling := true, calls := s.calls + 1 }, true)

/-- The `finally` block of `pullLibrary` (line 39): release the latch,
on success and failure alike. -/
def pullFinish (s : PullState) : PullState :=
  { s with pulling := false }

/-- One complete `pullLibrary` call: enter, and when a pull was started run the
`finally` regardless of the gateway outcome `ok`. -/
def pullRun (user ok : Bool) (s : PullState) : PullState :=
  let e := pullEnter user s
  if e.2 then pullFinish e.1 else e.1

/-- Split a list into batches of `n`, fuelled (`cover`-download batching,
useBooksSync.ts lines 105-109 and 127-131). -/
def chunksOf (n : Nat) : Nat → List Book → List (List Book)
  | 0, _ => []
  | fuel + 1, l =>
    if l.isEmpty then [] else l.take n :: chunksOf n fuel (l.drop n)

/-- All batches of size `n` of a list. -/
def chunks (n : Nat) (l : List Book) : List (List Book) :=
  chunksOf n l.length l

/-- `updateLibrary` with its effects on the `isSyncing` flag and with a
fallible `downloadBookCovers` collaborator `dl` (`true` = batch succeeded,
`false` = the awaited call threw).  Result: the final value of the `isSyncing`
flag (assumed `false` on entry, since line 79 returns early otherwise) and
`some` final library on success, `none` when an error propagated.  The source
has no try/finally around lines 123-142: a throw in the new-batch loop exits
with whatever value the flag has at that point. -/
def updateLibraryRun (g : Book → Option String) (dl : List Book → Bool)
    (library synced : List Book) : Bool × Option (List Book) :=
  if synced.isEmpty then (false, some library)
  else
    let sorted := sortByUpdatedAt synced
    let syncedHashes := sorted.map (fun b => b.hash)
    let oldBooks := library.filter (fun b => syncedHashes.contains b.hash)
    let oldNeeds := oldBooks.filter (fun b =>
      !truthy b.deletedAt && truthy b.uploadedAt && !truthy b.coverDownloadedAt)
    if (chunks 20 oldNeeds).all dl = false then (false, none)
    else
      let updatedLibrary := library.map (processOldBook g sorted)
      let newBooks := newBooksOf g library synced
      let flag := !newBooks.isEmpty
      if (chunks 10 newBooks).all dl = false then (flag, none)
      else (false, some (updatedLibrary ++ newBooks.map (hyd g)))

/-- A cover-URL generator that always returns `undefined`; used to instantiate
the collaborator in concrete evaluations. -/
def g0 : Book → Option String := fun _ => none

/-- What the spec means by "the result is `base` overlaid with all `overlay`
fields": every field present in `overlay` equals `overlay`'s value, fields
absent from `overlay` keep `base`'s value.  Transcribed from the spec's words
to be compared with the source's `spread`. -/
def OverlaidWith (base overlay result : Book) : Prop :=
  result.hash = overlay.hash ∧
  result.updatedAt = overlay.updatedAt ∧
  (∀ v, overlay.title = some v → result.title = some v) ∧
  (overlay.title = none → result.title = base.title) ∧
  (∀ v, overlay.progress = some v → result.progress = some v) ∧
  (overlay.progress = none → result.progress = base.progress) ∧
  (∀ v, overlay.deletedAt = some v → result.deletedAt = some v) ∧
  (overlay.deletedAt = none → result.deletedAt = base.deletedAt) ∧
  (∀ v, overlay.uploadedAt = some v → result.uploadedAt = some v) ∧
  (overlay.uploadedAt = none → result.uploadedAt = base.uploadedAt) ∧
  (∀ v, overlay.coverDownloadedAt = some v → result.coverDownloadedAt = some v) ∧
  (overlay.coverDownloadedAt = none → result.coverDownloadedAt = base.coverDownloadedAt) ∧
  (∀ v, overlay.coverImageUrl = some v → result.coverImageUrl = some v) ∧
  (overlay.coverImageUrl = none → result.coverImageUrl = base.coverImageUrl)

/-! Concrete records used in witnesses and counterexamples. -/

def mC1 : Book := ⟨"w1", 10, some "syn", none, none, none, none, none⟩
def bC1 : Book := ⟨"w1", 5, some "loc", some 7, none, none, none, none⟩
def mC1t : Book := ⟨"w1", 5, some "syn", none, none, none, none, none⟩

def bC3a : Book := ⟨"a", 6, none, none, none, none, none, none⟩
def bC3b : Book := ⟨"b", 4, none, none, some 6, none, none, none⟩
def bC3c : Book := ⟨"c", 4, none, none, some 3, none, none, none⟩

def lC7 : Book := ⟨"h", 5, some "local", none, none, none, some 1, none⟩
def aC7 : Book := ⟨"h", 10, some "A", none, none, some 1, some 1, none⟩
def bC7 : Book := ⟨"h", 20, some "B", none, none, some 1, some 1, none⟩

def nbC5 : Book := ⟨"n", 1, none, none, none, some 1, none, none⟩

def n1C8 : Book := ⟨"h", 1, some "x", none, none, some 1, none, none⟩
def n2C8 : Book := ⟨"h", 2, some "y", none, none, some 1, none, none⟩
def u1C8 : Book := ⟨"u1", 1, none, none, none, some 1, none, none⟩
def u2C8 : Book := ⟨"u2", 2, none, none, none, some 1, none, none⟩
def lbC8 : Book := ⟨"l1", 0, none, none, none, none, none, none⟩

def tC9 : Book := ⟨"t", 1, none, none, some 3, none, none, none⟩

def tC10 : Book := ⟨"h", 2, some "T", none, some 9, none, none, none⟩
def nC10 : Book := ⟨"h", 3, none, none, none, some 1, none, none⟩
def swC10 : Book := ⟨"s", 1, some "S", none, none, some 1, none, none⟩

/-- A synced batch with an internal hash collision: a tombstone and an
uploaded record sharing hash "h". -/
def batchCX10 : List Book := [tC10, nC10]

/-- A synced record for the incremental-progress witness: hash `"n<k>"`,
`updatedAt` `k`, uploaded, not tombstoned. -/
def wbook (k : Nat) : Book :=
  ⟨"n" ++ toString k, (k : Int), none, none, none, some 1, none, none⟩

/-- Twenty-five distinct uploaded synced records. -/
def batch25 : List Book := (List.range 25).map wbook

/-! ### Helper lemmas -/

theorem hyd_hash (g : Book → Option String) (b : Book) : (hyd g b).hash = b.hash := rfl

theorem mergeBook_hash (m x : Book) :
    (mergeBook m x).hash = if m.updatedAt > x.updatedAt then m.hash else x.hash := by
  rw [mergeBook]
  split <;> rfl

theorem processOldBook_hash (g : Book → Option String) (s : List Book) (b : Book) :
    (processOldBook g s b).hash = b.hash := by
  rw [processOldBook]
  cases hfind : s.find? (fun nb => nb.hash == b.hash) with
  | none => rfl
  | some m =>
    have hm : m.hash = b.hash := by simpa using List.find?_some hfind
    have hx : (if hydCond m b then hyd g b else b).hash = b.hash := by
      split <;> rfl
    rw [mergeBook_hash, hx]
    split <;> simp [hm]

theorem insertByUpdatedAt_perm (x : Book) (l : List Book) :
    (insertByUpdatedAt x l).Perm (x :: l) := by
  induction l with
  | nil => exact List.Perm.refl _
  | cons y ys ih =>
    rw [insertByUpdatedAt]
    split
    · exact List.Perm.refl _
    · exact (ih.cons y).trans (List.Perm.swap x y ys)

theorem sortByUpdatedAt_perm (l : List Book) : (sortByUpdatedAt l).Perm l := by
  induction l with
  | nil => exact List.Perm.refl _
  | cons x xs ih =>
    exact (insertByUpdatedAt_perm x (sortByUpdatedAt xs)).trans (ih.cons x)

theorem hydrateNewAux_empty (g : Book → Option String) (total fuel i : Nat)
    (acc : List Book) : hydrateNewAux g total fuel i acc [] = (acc, []) := by
  cases fuel <;> simp [hydrateNewAux]

theorem hydrateNewAux_cons (g : Book → Option String) (total fuel i : Nat)
    (acc rem : List Book) (h : rem.isEmpty = false) :
    hydrateNewAux g total (fuel + 1) i acc rem =
      ((hydrateNewAux g total fuel (i + 10)
          (acc ++ (rem.take 10).map (hyd g)) (rem.drop 10)).1,
        (min (((i + 10 : Nat) : ℚ) / (total : ℚ)) 1,
            acc.length + min 10 rem.length) ::
          (hydrateNewAux g total fuel (i + 10)
            (acc ++ (rem.take 10).map (hyd g)) (rem.drop 10)).2) := by
  rw [hydrateNewAux, if_neg (by simp [h])]
  simp [List.length_append, List.length_take]

theorem hydrateNewAux_fst (g : Book → Option String) (total : Nat) :
    ∀ (fuel i : Nat) (acc rem : List Book), rem.length ≤ fuel →
      (hydrateNewAux g total fuel i acc rem).1 = acc ++ rem.map (hyd g) := by
  intro fuel
  induction fuel with
  | zero =>
    intro i acc rem h
    have : rem = [] := List.eq_nil_of_length_eq_zero (Nat.le_zero.mp h)
    subst this
    simp [hydrateNewAux]
  | succ n ih =>
    intro i acc rem h
    by_cases hre : rem.isEmpty = true
    · have : rem = [] := by simpa [List.isEmpty_iff] using hre
      subst this
      simp [hydrateNewAux_empty]
    · rw [hydrateNewAux_cons g total n i acc rem (by simpa using hre)]
      have hne : rem ≠ [] := by simpa [List.isEmpty_iff] using hre
      have h1 : 1 ≤ rem.length := by
        cases rem with
        | nil => exact absurd rfl hne
        | cons a l => simp
      rw [ih (i + 10) (acc ++ (rem.take 10).map (hyd g)) (rem.drop 10)
          (by rw [List.length_drop]; omega)]
      rw [List.append_assoc, ← List.map_append, List.take_append_drop]

theorem updateLibrary_fst (g : Book → Option String) (lib synced : List Book) :
    (updateLibrary g lib synced).1 =
      if synced.isEmpty then lib
      else lib.map (processOldBook g (sortByUpdatedAt synced))
        ++ (newBooksOf g lib synced).map (hyd g) := by
  rw [updateLibrary]
  by_cases h : synced.isEmpty = true
  · simp [h]
  · rw [if_neg h, if_neg h]
    exact hydrateNewAux_fst g _ _ 0 _ _ (Nat.le_refl _)

theorem map_hash_processed (g : Book → Option String) (s lib : List Book) :
    (lib.map (processOldBook g s)).map (fun b => b.hash) = lib.map (fun b => b.hash) := by
  rw [List.map_map]
  exact List.map_congr_left (fun a _ => processOldBook_hash g s a)

theorem ov_none {α : Type} (a : Option α) : ov a none = a := rfl

theorem ov_some {α : Type} (a : Option α) (x : α) : ov a (some x) = some x := rfl

theorem overlaid_spread (base overlay : Book) :
    OverlaidWith base overlay (spread base overlay) := by
  refine ⟨rfl, rfl, ?_, ?_, ?_, ?_, ?_, ?_, ?_, ?_, ?_, ?_, ?_, ?_⟩ <;>
    first
      | (intro v h; simp only [spread, h, ov_some])
      | (intro h; simp only [spread, h, ov_none])

/-! ### C1: asymmetric record-granular field merge of a matched pair -/

/-- C1: for a matched synced/local pair, if the synced record's `updatedAt` is
strictly greater than the local record's, the merge result is the local record
overlaid with every field of the synced record (fields present in synced win,
fields absent from synced keep the local value); otherwise — ties included —
the result is the synced record overlaid with every field of the local
record. -/
theorem c1_merge_overlay (m b : Book) :
    (b.updatedAt < m.updatedAt → OverlaidWith b m (mergeBook m b)) ∧
    (¬ b.updatedAt < m.updatedAt → OverlaidWith m b (mergeBook m b)) := by
  constructor
  · intro h
    rw [mergeBook, if_pos (by exact h)]
    exact overlaid_spread b m
  · intro h
    rw [mergeBook, if_neg (by exact h)]
    exact overlaid_spread m b

theorem c1_merge_overlay_witness :
    (mergeBook mC1 bC1).title = some "syn" ∧ (mergeBook mC1t bC1).title = some "loc" :=
  ⟨((c1_merge_overlay mC1 bC1).1 (by decide)).2.2.1 "syn" rfl,
   ((c1_merge_overlay mC1t bC1).2 (by decide)).2.2.1 "loc" rfl⟩

/-! ### C3: the changed-since-cursor selection rule -/

/-- C3: a record is selected as locally changed iff `cursor < updatedAt` or
`cursor < (deletedAt ?? 0)`; in particular `updatedAt = C+1` with no
`deletedAt` qualifies, `updatedAt = C-1` with `deletedAt = C+1` qualifies, and
a record with both timestamps below `C` does not. -/
theorem c3_selection_rule (c : Int) (b : Book) (library : List Book) :
    (b ∈ getNewBooksSel c library ↔
      b ∈ library ∧ (c < b.updatedAt ∨ c < b.deletedAt.getD 0)) ∧
    (b.updatedAt = c + 1 → b.deletedAt = none → bookChanged c b = true) ∧
    (b.updatedAt = c - 1 → b.deletedAt = some (c + 1) → bookChanged c b = true) ∧
    (b.updatedAt < c → b.deletedAt.getD 0 < c → bookChanged c b = false) := by
  refine ⟨?_, ?_, ?_, ?_⟩
  · simp [getNewBooksSel, List.mem_filter, bookChanged]
  · intro h1 h2
    simp [bookChanged, h1, h2]
  · intro h1 h2
    simp [bookChanged, h1, h2]
  · intro h1 h2
    simp only [bookChanged, Bool.or_eq_false_iff, decide_eq_false_iff_not, not_lt]
    omega

theorem c3_selection_rule_witness :
    bookChanged 5 bC3a = true ∧ bookChanged 5 bC3b = true ∧ bookChanged 5 bC3c = false :=
  ⟨(c3_selection_rule 5 bC3a []).2.1 rfl rfl,
   (c3_selection_rule 5 bC3b []).2.2.1 (by decide) (by decide),
   (c3_selection_rule 5 bC3c []).2.2.2 (by decide) (by decide)⟩

/-! ### C4: single-flight pull latch -/

/-- C4: `pullLibrary` is single-flight: a call while the latch is held returns
immediately with no gateway invocation and no state change; a started pull
releases the latch via `finally` whether the gateway succeeds or fails, having
made exactly one invocation; and in the back-to-back scenario (second call
issued, run to completion, while the first is suspended at the gateway) the
total number of gateway invocations is one and the latch ends released. -/
theorem c4_single_flight :
    (∀ s : PullState, s.pulling = true → pullEnter true s = (s, false)) ∧
    (∀ (s : PullState) (ok : Bool), (pullEnter true s).2 = true →
      pullRun true ok s = { pulling := false, calls := s.calls + 1 }) ∧
    (pullFinish (pullRun true false (pullEnter true ⟨false, 0⟩).1) =
      { pulling := false, calls := 1 }) := by
  refine ⟨?_, ?_, ?_⟩
  · intro s h
    simp [pullEnter, h]
  · intro s ok h
    by_cases hp : s.pulling
    · simp [pullEnter, hp] at h
    · simp [pullRun, pullEnter, pullFinish, hp]
  · rfl

theorem c4_single_flight_witness :
    pullEnter true ⟨true, 3⟩ = (⟨true, 3⟩, false) ∧
    pullRun true false ⟨false, 0⟩ = { pulling := false, calls := 1 } :=
  ⟨c4_single_flight.1 ⟨true, 3⟩ rfl, c4_single_flight.2.1 ⟨false, 0⟩ false (by decide)⟩

/-! ### C6: the autosync trigger condition -/

/-- C6 counterexample: with a user and cursor `lastSyncedAt = 1`, an empty
library yields an empty local-change selection, yet `handleAutoSync` still
performs a gateway call (with an empty payload), because the code tests
truthiness of `newBooks.lastSyncedAt`, not whether any candidate exists.  This
refutes "autosync makes no gateway call when no record has changed". -/
theorem c6_counterexample :
    handleAutoSync true 1 [] = some [] ∧ getNewBooksSel 1 [] = [] := by
  constructor <;> rfl

/-- C6 amended: an autosync trigger performs the bidirectional sync call iff a
user is present and the cursor `lastSyncedAt` is truthy (nonzero), regardless
of whether the selection is empty; when the call is made its payload is the
local-change selection. -/
theorem c6_amended (user : Bool) (c : Int) (library : List Book) :
    ((handleAutoSync user c library).isSome = true ↔ (user = true ∧ c ≠ 0)) ∧
    (∀ l, handleAutoSync user c library = some l → l = getNewBooksSel c library) := by
  constructor
  · cases user <;> by_cases hc : c = 0 <;>
      simp [handleAutoSync, getNewBooks, hc]
  · intro l h
    cases user with
    | false => simp [handleAutoSync, getNewBooks] at h
    | true =>
      by_cases hc : c = 0
      · simp [handleAutoSync, getNewBooks, hc] at h
      · simp [handleAutoSync, getNewBooks, hc] at h
        exact h.symm

theorem c6_amended_witness :
    (handleAutoSync true 1 []).isSome = true ∧ ([] : List Book) = getNewBooksSel 1 [] :=
  ⟨(c6_amended true 1 []).1.mpr ⟨rfl, by decide⟩, (c6_amended true 1 []).2 [] rfl⟩

/-! ### C7: duplicate hashes in the synced batch -/

/-- C7 counterexample: local record with hash "h" (`updatedAt` 5), synced batch
holding two records with that hash, `updatedAt` 10 (title "A") and 20
(title "B").  The claim says the merge is determined by the record with the
larger `updatedAt` ("B"), but the walk uses `find` on the ascending-sorted
batch, which returns the record with the smallest `updatedAt`: the merged title
is "A". -/
theorem c7_counterexample :
    ((updateLibrary g0 [lC7] [aC7, bC7]).1).map Book.title = [some "A"] ∧
    (some "A" : Option String) ≠ some "B" := by
  constructor
  · rfl
  · decide

/-- C7 amended: when the synced batch contains two records with the same hash
as a local record but different `updatedAt` values, the merge result for that
local record is determined by the synced record with the *smaller* `updatedAt`
(the first match of the ascending-sorted walk): processing the two-record batch
equals processing the batch holding only the smaller one. -/
theorem c7_amended (g : Book → Option String) (x y ob : Book)
    (hx : x.hash = ob.hash) (hy : y.hash = ob.hash)
    (hlt : x.updatedAt < y.updatedAt) :
    processOldBook g (sortByUpdatedAt [y, x]) ob = processOldBook g [x] ob := by
  have hsort : sortByUpdatedAt [y, x] = [x, y] := by
    simp [sortByUpdatedAt, insertByUpdatedAt, not_le.mpr hlt]
  rw [hsort]
  have hpx : (fun nb => nb.hash == ob.hash) x = true := by simp [hx]
  have h1 : List.find? (fun nb => nb.hash == ob.hash) [x, y] = some x :=
    List.find?_cons_of_pos [y] hpx
  have h2 : List.find? (fun nb => nb.hash == ob.hash) [x] = some x :=
    List.find?_cons_of_pos [] hpx
  rw [processOldBook, processOldBook, h1, h2]

theorem c7_amended_witness :
    processOldBook g0 (sortByUpdatedAt [bC7, aC7]) lC7 = processOldBook g0 [aC7] lC7 :=
  c7_amended g0 aC7 bC7 lC7 rfl rfl (by decide)

/-! ### C5: the syncing flag on error paths -/

/-- C5 (code bug): the syncing flag is *not* cleared on every exit path.  With
one new record to hydrate, the flag is raised; when the awaited cover-download
of the first new batch throws, the error propagates with the flag still `true`
(there is no try/finally around useBooksSync.ts lines 123-142, unlike
`pullLibrary`), permanently blocking future merges via the line-79 guard.  On
the success path the flag is cleared as the claim says. -/
theorem c5_flag_not_cleared :
    updateLibraryRun g0 (fun _ => false) [] [nbC5] = (true, none) ∧
    updateLibraryRun g0 (fun _ => true) [] [nbC5] = (false, some [nbC5]) := by
  constructor <;> rfl

/-! ### C8: hash uniqueness after a merge -/

/-- C8 counterexample: the input library `[]` trivially has unique hashes, but
the synced batch holds two uploaded, non-tombstoned records with the same new
hash "h"; `bookHashesInLibrary` is computed before any append, so both are
appended and the merged library contains hash "h" twice. -/
theorem c8_counterexample :
    (List.map Book.hash ([] : List Book)).Nodup ∧
    ¬ (((updateLibrary g0 [] [n1C8, n2C8]).1).map Book.hash).Nodup := by
  constructor
  · simp
  · decide

/-- C8 amended: after a merge cycle, hashes are unique in the resulting
library, provided the input library had unique hashes *and* the synced batch
itself has pairwise-distinct hashes (records of the batch colliding with each
other can both be appended). -/
theorem c8_amended (g : Book → Option String) (lib synced : List Book)
    (h1 : (lib.map (fun b => b.hash)).Nodup)
    (h2 : (synced.map (fun b => b.hash)).Nodup) :
    (((updateLibrary g lib synced).1).map (fun b => b.hash)).Nodup := by
  rw [updateLibrary_fst]
  by_cases h : synced.isEmpty = true
  · rwa [if_pos h]
  · rw [if_neg h, List.map_append, List.nodup_append]
    have hperm : ((sortByUpdatedAt synced).map (fun b => b.hash)).Nodup :=
      ((sortByUpdatedAt_perm synced).map (fun b => b.hash)).nodup_iff.mpr h2
    have hsub :
        List.Sublist ((newBooksOf g lib synced).map (fun b => b.hash))
          ((sortByUpdatedAt synced).map (fun b => b.hash)) := by
      rw [newBooksOf]
      exact (List.filter_sublist _).map _
    refine ⟨?_, ?_, ?_⟩
    · rwa [map_hash_processed]
    · rw [List.map_map]
      have heq : (newBooksOf g lib synced).map ((fun b => b.hash) ∘ hyd g) =
          (newBooksOf g lib synced).map (fun b => b.hash) :=
        List.map_congr_left (fun a _ => rfl)
      rw [heq]
      exact hperm.sublist hsub
    · intro a ha hb
      rw [map_hash_processed] at ha
      rw [List.map_map] at hb
      have heq : (newBooksOf g lib synced).map ((fun b => b.hash) ∘ hyd g) =
          (newBooksOf g lib synced).map (fun b => b.hash) :=
        List.map_congr_left (fun a _ => rfl)
      rw [heq] at hb
      obtain ⟨nb, hnb, rfl⟩ := List.mem_map.mp hb
      rw [newBooksOf] at hnb
      have hpred := List.of_mem_filter hnb
      have hcont : ((lib.map (processOldBook g (sortByUpdatedAt synced))).map
          (fun b => b.hash)).contains nb.hash = false := by
        rcases Bool.and_eq_true_iff.mp hpred with ⟨hl, _⟩
        rcases Bool.and_eq_true_iff.mp hl with ⟨hn, _⟩
        simpa using hn
      rw [map_hash_processed] at hcont
      simp [List.contains] at hcont
      obtain ⟨x, hx, hxh⟩ := List.mem_map.mp ha
      exact hcont x hx hxh

theorem c8_amended_witness :
    (((updateLibrary g0 [lbC8] [u1C8, u2C8]).1).map (fun b => b.hash)).Nodup :=
  c8_amended g0 [lbC8] [u1C8, u2C8] (by decide) (by decide)

/-! ### C9: tombstones survive the merge -/

/-- C9: every local record with `deletedAt` set still has a record with its
hash in the merged library — matched records are merged in place (hash
preserved) and unmatched records pass through unchanged; the merge never
physically removes a record. -/
theorem c9_tombstone_retained (g : Book → Option String) (lib synced : List Book)
    (b : Book) (hb : b ∈ lib) (ht : b.deletedAt ≠ none) :
    ((updateLibrary g lib synced).1).any (fun x => x.hash == b.hash) = true := by
  rw [updateLibrary_fst]
  by_cases h : synced.isEmpty = true
  · rw [if_pos h]
    exact List.any_eq_true.mpr ⟨b, hb, by simp⟩
  · rw [if_neg h]
    refine List.any_eq_true.mpr ⟨processOldBook g (sortByUpdatedAt synced) b, ?_, ?_⟩
    · exact List.mem_append_left _ (List.mem_map_of_mem _ hb)
    · simp [processOldBook_hash]

theorem c9_tombstone_retained_witness :
    ((updateLibrary g0 [tC9] [n1C8]).1).any (fun x => x.hash == tC9.hash) = true :=
  c9_tombstone_retained g0 [tC9] [n1C8] tC9 (by simp) (by simp [tC9])

/-! ### C2: incremental progress for 25 new records, batch size 10 -/

/-- C2: in a merge cycle with exactly 25 newly-arrived records (batch size 10),
the published progress fractions are exactly 0.4, 0.8, 1.0 in that order, each
`min((i + batchSize) / totalNew, 1)`, and the library snapshot grows by 10, 10
and 5 records at the three steps. -/
theorem c2_progress (g : Book → Option String) (lib synced : List Book)
    (h : (newBooksOf g lib synced).length = 25) :
    (updateLibrary g lib synced).2 =
      [((2 : ℚ)/5, lib.length + 10), ((4 : ℚ)/5, lib.length + 20),
        (1, lib.length + 25)] := by
  have hne : synced.isEmpty = false := by
    cases synced with
    | nil => simp [newBooksOf, sortByUpdatedAt] at h
    | cons a l => rfl
  have hNBne : (newBooksOf g lib synced).isEmpty = false := by
    cases hx : newBooksOf g lib synced with
    | nil => rw [hx] at h; simp at h
    | cons a l => rfl
  rw [updateLibrary, hne]
  simp only [Bool.false_eq_true, if_false]
  rw [h]
  set NB := newBooksOf g lib synced with hNBdef
  set acc0 := lib.map (processOldBook g (sortByUpdatedAt synced)) with hacc0def
  show (hydrateNewAux g 25 (24 + 1) 0 acc0 NB).2 = _
  rw [hydrateNewAux_cons g 25 24 0 acc0 NB hNBne]
  set acc1 := acc0 ++ (NB.take 10).map (hyd g) with hacc1def
  set rem1 := NB.drop 10 with hrem1def
  have hrem1len : rem1.length = 15 := by rw [hrem1def, List.length_drop, h]
  have hrem1ne : rem1.isEmpty = false := by
    cases hx : rem1 with
    | nil => rw [hx] at hrem1len; simp at hrem1len
    | cons a l => rfl
  show ((min (((0 + 10 : Nat) : ℚ) / (25 : ℚ)) 1, acc0.length + min 10 NB.length) ::
      (hydrateNewAux g 25 (23 + 1) 10 acc1 rem1).2) = _
  rw [hydrateNewAux_cons g 25 23 10 acc1 rem1 hrem1ne]
  set acc2 := acc1 ++ (rem1.take 10).map (hyd g) with hacc2def
  set rem2 := rem1.drop 10 with hrem2def
  have hrem2len : rem2.length = 5 := by rw [hrem2def, List.length_drop, hrem1len]
  have hrem2ne : rem2.isEmpty = false := by
    cases hx : rem2 with
    | nil => rw [hx] at hrem2len; simp at hrem2len
    | cons a l => rfl
  show ((min (((0 + 10 : Nat) : ℚ) / (25 : ℚ)) 1, acc0.length + min 10 NB.length) ::
      (min (((10 + 10 : Nat) : ℚ) / (25 : ℚ)) 1, acc1.length + min 10 rem1.length) ::
      (hydrateNewAux g 25 (22 + 1) (10 + 10) acc2 rem2).2) = _
  rw [hydrateNewAux_cons g 25 22 (10 + 10) acc2 rem2 hrem2ne]
  have hrem3 : rem2.drop 10 = [] := by
    apply List.eq_nil_of_length_eq_zero
    rw [List.length_drop, hrem2len]
  rw [hrem3, hydrateNewAux_empty]
  have hacc0len : acc0.length = lib.length := by rw [hacc0def, List.length_map]
  have hacc1len : acc1.length = lib.length + 10 := by
    rw [hacc1def]
    simp only [List.length_append, List.length_map, List.length_take, h]
    omega
  have hacc2len : acc2.length = lib.length + 20 := by
    rw [hacc2def]
    simp only [List.length_append, List.length_map, List.length_take, hrem1len, hacc1len]
    omega
  rw [hacc0len, hacc1len, hacc2len, h, hrem1len, hrem2len]
  norm_num [min_def]

theorem c2_progress_witness :
    (newBooksOf g0 [] batch25).length = 25 ∧
    (updateLibrary g0 [] batch25).2 =
      [((2 : ℚ)/5, ([] : List Book).length + 10), ((4 : ℚ)/5, ([] : List Book).length + 20),
        (1, ([] : List Book).length + 25)] :=
  ⟨by decide, c2_progress g0 [] batch25 (by decide)⟩

/-! ### C10: merge idempotence -/

theorem ov_absorb {α : Type} (a b : Option α) : ov a (ov b a) = ov b a := by
  cases a <;> cases b <;> rfl

theorem ov_absorb2 {α : Type} (a b : Option α) : ov a (ov a b) = ov a b := by
  cases a <;> cases b <;> rfl

theorem ov_self {α : Type} (a : Option α) : ov a a = a := by
  cases a <;> rfl

theorem ov_none_left {α : Type} (x : Option α) : ov none x = x := by
  cases x <;> rfl

theorem spread_absorb_right (a b : Book) : spread a (spread b a) = spread b a := by
  simp [spread, ov_absorb]

theorem spread_absorb_left (a b : Book) : spread a (spread a b) = spread a b := by
  simp [spread, ov_absorb2]

theorem setCover_self (x : Book) : { x with coverImageUrl := x.coverImageUrl } = x := by
  cases x
  rfl

theorem processOldBook_eq_found (g : Book → Option String) (s : List Book) (b m : Book)
    (hfind : s.find? (fun nb => nb.hash == b.hash) = some m) :
    processOldBook g s b = mergeBook m (if hydCond m b then hyd g b else b) := by
  rw [processOldBook, hfind]

theorem processOldBook_eq_none (g : Book → Option String) (s : List Book) (b : Book)
    (hfind : s.find? (fun nb => nb.hash == b.hash) = none) :
    processOldBook g s b = b := by
  rw [processOldBook, hfind]

theorem hydCond_eq_true (m b : Book) :
    hydCond m b = true ↔
      truthy m.deletedAt = false ∧ truthy m.uploadedAt = true ∧
        truthy b.coverDownloadedAt = false := by
  simp [hydCond, Bool.and_eq_true, and_assoc]

theorem truthy_eq_false_iff (o : Option Int) :
    truthy o = false ↔ o = none ∨ o = some 0 := by
  cases o with
  | none => simp [truthy]
  | some n => simp [truthy]

/-- In a list whose hashes are pairwise distinct, `find?` by a member's hash
returns that member. -/
theorem find?_self_of_nodup :
    ∀ (l : List Book), (l.map (fun b => b.hash)).Nodup →
      ∀ b ∈ l, l.find? (fun nb => nb.hash == b.hash) = some b := by
  intro l
  induction l with
  | nil => intro _ b hb; simp at hb
  | cons x xs ih =>
    intro hnd b hb
    rw [List.map_cons, List.nodup_cons] at hnd
    cases hp : (x.hash == b.hash) with
    | true =>
      rw [List.find?_cons_of_pos xs hp]
      rcases List.mem_cons.mp hb with rfl | hbtail
      · rfl
      · exfalso
        have hxb : x.hash = b.hash := by simpa using hp
        exact hnd.1 (hxb ▸ List.mem_map_of_mem (fun b => b.hash) hbtail)
    | false =>
      rw [List.find?_cons_of_neg xs (by simp [hp])]
      rcases List.mem_cons.mp hb with rfl | hbtail
      · simp at hp
      · exact ih hnd.2 b hbtail

/-- Pass-two stability of a matched local record: re-processing the result of
`processOldBook` against the same sorted batch changes nothing, provided
cover-URL generation depends only on the hash, synced records carry no
`coverImageUrl` and no `coverDownloadedAt = 0`, and the local record has no
`coverDownloadedAt = 0`. -/
theorem processOldBook_idem (g : Book → Option String) (s : List Book)
    (hg : ∀ a b : Book, a.hash = b.hash → g a = g b)
    (hs : ∀ m ∈ s, m.coverImageUrl = none ∧ m.coverDownloadedAt ≠ some 0)
    (b : Book) (hbcda : b.coverDownloadedAt ≠ some 0) :
    processOldBook g s (processOldBook g s b) = processOldBook g s b := by
  cases hfind : s.find? (fun nb => nb.hash == b.hash) with
  | none =>
    have hb : processOldBook g s b = b := processOldBook_eq_none g s b hfind
    rw [hb]
    exact hb
  | some m =>
    have hmhash : m.hash = b.hash := by simpa using List.find?_some hfind
    obtain ⟨hmc, hmcda⟩ := hs m (List.mem_of_find?_eq_some hfind)
    have hP := processOldBook_eq_found g s b m hfind
    set b1 := (if hydCond m b then hyd g b else b) with hb1def
    have hb1hash : b1.hash = b.hash := by rw [hb1def]; split <;> rfl
    have hb1upd : b1.updatedAt = b.updatedAt := by rw [hb1def]; split <;> rfl
    have hb1cda : b1.coverDownloadedAt = b.coverDownloadedAt := by rw [hb1def]; split <;> rfl
    set r := mergeBook m b1 with hrdef
    have hrhash : r.hash = b.hash := by
      rw [hrdef, mergeBook_hash]
      split <;> [exact hmhash; exact hb1hash]
    have hfind2 : s.find? (fun nb => nb.hash == r.hash) = some m := by
      rw [hrhash]; exact hfind
    rw [hP, processOldBook_eq_found g s r m hfind2]
    by_cases hup : m.updatedAt > b.updatedAt
    · -- pass 1: synced newer, r = spread b1 m
      have hr2 : r = spread b1 m := by
        rw [hrdef, mergeBook, if_pos (by rw [hb1upd]; exact hup)]
      have hrupd : r.updatedAt = m.updatedAt := by rw [hr2]; rfl
      have hnot2 : ¬ m.updatedAt > r.updatedAt := by rw [hrupd]; exact lt_irrefl _
      have hfin : mergeBook m r = r := by
        rw [mergeBook, if_neg hnot2, hr2, spread_absorb_right]
      by_cases hc2 : hydCond m r = true
      · -- re-hydration fires on pass 2; show it rewrites the same value
        obtain ⟨hda, hua, hcda2⟩ := (hydCond_eq_true m r).mp hc2
        have hmcda_none : m.coverDownloadedAt = none := by
          have hrcda : r.coverDownloadedAt = ov b1.coverDownloadedAt m.coverDownloadedAt := by
            rw [hr2]; rfl
          rcases hmo : m.coverDownloadedAt with _ | x
          · rfl
          · exfalso
            rw [hrcda, hmo, ov_some] at hcda2
            rcases (truthy_eq_false_iff (some x)).mp hcda2 with h | h
            · exact Option.noConfusion h
            · exact hmcda (hmo.trans (by simpa using h))
        have hbcda_false : truthy b.coverDownloadedAt = false := by
          have hrcda : r.coverDownloadedAt = b.coverDownloadedAt := by
            rw [hr2, show (spread b1 m).coverDownloadedAt =
              ov b1.coverDownloadedAt m.coverDownloadedAt from rfl, hmcda_none, ov_none, hb1cda]
          rwa [hrcda] at hcda2
        have hc1 : hydCond m b = true :=
          (hydCond_eq_true m b).mpr ⟨hda, hua, hbcda_false⟩
        have hb1val : b1 = hyd g b := by rw [hb1def, if_pos hc1]
        have hrc : r.coverImageUrl = g b := by
          rw [hr2, show (spread b1 m).coverImageUrl =
            ov b1.coverImageUrl m.coverImageUrl from rfl, hmc, ov_none, hb1val]
          rfl
        have hgr : g r = g b := hg r b hrhash
        have hhydr : hyd g r = r := by
          rw [hyd, hgr, ← hrc, setCover_self]
        rw [if_pos hc2, hhydr, hfin]
      · rw [if_neg hc2, hfin]
    · -- pass 1: local wins the tie or is newer, r = spread m b1
      have hr2 : r = spread m b1 := by
        rw [hrdef, mergeBook, if_neg (by rw [hb1upd]; exact hup)]
      have hrupd : r.updatedAt = b.updatedAt := by rw [hr2]; exact hb1upd
      have hnot2 : ¬ m.updatedAt > r.updatedAt := by rw [hrupd]; exact hup
      have hfin : mergeBook m r = r := by
        rw [mergeBook, if_neg hnot2, hr2, spread_absorb_left]
      by_cases hc2 : hydCond m r = true
      · obtain ⟨hda, hua, hcda2⟩ := (hydCond_eq_true m r).mp hc2
        have hbcda_none : b.coverDownloadedAt = none := by
          have hrcda : r.coverDownloadedAt = ov m.coverDownloadedAt b1.coverDownloadedAt := by
            rw [hr2]; rfl
          rcases hbo : b.coverDownloadedAt with _ | x
          · rfl
          · exfalso
            rw [hrcda, hb1cda, hbo, ov_some] at hcda2
            rcases (truthy_eq_false_iff (some x)).mp hcda2 with h | h
            · exact Option.noConfusion h
            · exact hbcda (hbo.trans (by simpa using h))
        have hc1 : hydCond m b = true :=
          (hydCond_eq_true m b).mpr ⟨hda, hua, by rw [hbcda_none]; rfl⟩
        have hb1val : b1 = hyd g b := by rw [hb1def, if_pos hc1]
        have hrc : r.coverImageUrl = g b := by
          rw [hr2, show (spread m b1).coverImageUrl =
            ov m.coverImageUrl b1.coverImageUrl from rfl, hb1val, hmc]
          show ov none (g b) = g b
          exact ov_none_left (g b)
        have hgr : g r = g b := hg r b hrhash
        have hhydr : hyd g r = r := by
          rw [hyd, hgr, ← hrc, setCover_self]
        rw [if_pos hc2, hhydr, hfin]
      · rw [if_neg hc2, hfin]

theorem spread_hyd_self (g : Book → Option String) (nb : Book)
    (hc : nb.coverImageUrl = none) : spread nb (hyd g nb) = hyd g nb := by
  simp [spread, hyd, hc, ov_self, ov_none_left]

/-- Pass-two stability of an appended new record: re-processing `hyd g nb`
against the same batch (whose `find?` by `nb`'s hash returns `nb` itself)
changes nothing, provided cover-URL generation depends only on the hash and
`nb` carried no `coverImageUrl`. -/
theorem processOldBook_hyd_idem (g : Book → Option String) (s : List Book)
    (hg : ∀ a b : Book, a.hash = b.hash → g a = g b)
    (nb : Book) (hfind : s.find? (fun x => x.hash == nb.hash) = some nb)
    (hc : nb.coverImageUrl = none) :
    processOldBook g s (hyd g nb) = hyd g nb := by
  have hfind2 : s.find? (fun x => x.hash == (hyd g nb).hash) = some nb := hfind
  rw [processOldBook_eq_found g s (hyd g nb) nb hfind2]
  have hgh : g (hyd g nb) = g nb := hg _ _ rfl
  have hh2 : hyd g (hyd g nb) = hyd g nb := by
    rw [hyd, hgh, show g nb = (hyd g nb).coverImageUrl from rfl, setCover_self]
  have hbranch : ¬ nb.updatedAt > (hyd g nb).updatedAt := lt_irrefl _
  by_cases hcnd : hydCond nb (hyd g nb) = true
  · rw [if_pos hcnd, hh2, mergeBook, if_neg hbranch, spread_hyd_self g nb hc]
  · rw [if_neg hcnd, mergeBook, if_neg hbranch, spread_hyd_self g nb hc]

/-- A second merge of the same batch appends nothing: every batch record that
is uploaded and not tombstoned either already matched the library or was
appended by the first merge, so its hash is now present. -/
theorem newBooksOf_after_merge (g : Book → Option String) (lib synced : List Book) :
    newBooksOf g ((updateLibrary g lib synced).1) synced = [] := by
  by_cases hE : synced.isEmpty = true
  · have : synced = [] := by simpa [List.isEmpty_iff] using hE
    subst this
    rfl
  · rw [newBooksOf]
    apply List.filter_eq_nil_iff.mpr
    intro nb hnb hpred
    rcases Bool.and_eq_true_iff.mp hpred with ⟨hl, hd⟩
    rcases Bool.and_eq_true_iff.mp hl with ⟨hnc, hu⟩
    rw [map_hash_processed] at hnc
    have hnc2 : (((updateLibrary g lib synced).1).map (fun b => b.hash)).contains nb.hash
        = false := by simpa using hnc
    have hmemL1 : nb.hash ∈ ((updateLibrary g lib synced).1).map (fun b => b.hash) := by
      rw [updateLibrary_fst, if_neg hE, List.map_append]
      by_cases hmem : ((lib.map (processOldBook g (sortByUpdatedAt synced))).map
          (fun b => b.hash)).contains nb.hash = true
      · exact List.mem_append_left _ (List.elem_iff.mp hmem)
      · apply List.mem_append_right
        have hnb1 : nb ∈ newBooksOf g lib synced := by
          rw [newBooksOf]
          refine List.mem_filter.mpr ⟨hnb, ?_⟩
          refine Bool.and_eq_true_iff.mpr ⟨Bool.and_eq_true_iff.mpr ⟨?_, hu⟩, hd⟩
          simp only [Bool.not_eq_true'] at hmem ⊢
          exact Bool.eq_false_iff.mpr (fun h => hmem h)
        have : (hyd g nb).hash = nb.hash := rfl
        rw [← this]
        exact List.mem_map_of_mem (fun b => b.hash) (List.mem_map_of_mem (hyd g) hnb1)
    have htrue : (((updateLibrary g lib synced).1).map (fun b => b.hash)).contains nb.hash
        = true := List.elem_iff.mpr hmemL1
    rw [htrue] at hnc2
    exact Bool.noConfusion hnc2

/-- C10 counterexample: synced batch `[tC10, nC10]` shares hash "h": `tC10` is
a tombstone (never appended), `nC10` is uploaded and gets appended by the first
merge.  On the second merge `nC10`'s library copy matches the batch, `find`
returns the tombstone `tC10` (smallest `updatedAt`), and the overlay
`{...tC10, ...copy}` fills in `tC10`'s `title` — the second merge changes a
record, so merging the same batch twice is not idempotent. -/
theorem c10_counterexample :
    (updateLibrary g0 ((updateLibrary g0 [] batchCX10).1) batchCX10).1 ≠
      (updateLibrary g0 [] batchCX10).1 := by
  decide

/-- C10 amended: the second merge of the same batch appends no new records
(unconditionally), and also changes no record's fields provided the batch's
hashes are pairwise distinct, synced records carry no `coverImageUrl` and no
`coverDownloadedAt = 0`, no library record has `coverDownloadedAt = 0`, and
cover-URL generation depends only on the record's hash (otherwise re-hydration
of a still-coverless record can rewrite `coverImageUrl`, and a duplicate batch
record that was not appended can overlay the appended one's absent fields). -/
theorem c10_amended (g : Book → Option String) (lib synced : List Book)
    (hg : ∀ a b : Book, a.hash = b.hash → g a = g b)
    (hnodup : (synced.map (fun b => b.hash)).Nodup)
    (hsync : ∀ nb ∈ synced, nb.coverImageUrl = none ∧ nb.coverDownloadedAt ≠ some 0)
    (hlib : ∀ b ∈ lib, b.coverDownloadedAt ≠ some 0) :
    (updateLibrary g ((updateLibrary g lib synced).1) synced).1 =
      (updateLibrary g lib synced).1 ∧
    newBooksOf g ((updateLibrary g lib synced).1) synced = [] := by
  refine ⟨?_, newBooksOf_after_merge g lib synced⟩
  by_cases hE : synced.isEmpty = true
  · have : synced = [] := by simpa [List.isEmpty_iff] using hE
    subst this
    simp [updateLibrary]
  · have hsorted_mem : ∀ m ∈ sortByUpdatedAt synced,
        m.coverImageUrl = none ∧ m.coverDownloadedAt ≠ some 0 :=
      fun m hm => hsync m ((sortByUpdatedAt_perm synced).mem_iff.mp hm)
    have hsorted_nodup : ((sortByUpdatedAt synced).map (fun b => b.hash)).Nodup :=
      ((sortByUpdatedAt_perm synced).map (fun b => b.hash)).nodup_iff.mpr hnodup
    rw [updateLibrary_fst g ((updateLibrary g lib synced).1) synced, if_neg hE,
      newBooksOf_after_merge g lib synced, List.map_nil, List.append_nil]
    rw [updateLibrary_fst g lib synced, if_neg hE, List.map_append]
    have h1 : (lib.map (processOldBook g (sortByUpdatedAt synced))).map
        (processOldBook g (sortByUpdatedAt synced)) =
        lib.map (processOldBook g (sortByUpdatedAt synced)) := by
      rw [List.map_map]
      apply List.map_congr_left
      intro a ha
      simp only [Function.comp_apply]
      exact processOldBook_idem g _ hg hsorted_mem a (hlib a ha)
    have h2 : ((newBooksOf g lib synced).map (hyd g)).map
        (processOldBook g (sortByUpdatedAt synced)) =
        (newBooksOf g lib synced).map (hyd g) := by
      rw [List.map_map]
      apply List.map_congr_left
      intro a ha
      simp only [Function.comp_apply]
      have hmem : a ∈ sortByUpdatedAt synced := by
        rw [newBooksOf] at ha
        exact (List.mem_filter.mp ha).1
      exact processOldBook_hyd_idem g _ hg a
        (find?_self_of_nodup _ hsorted_nodup a hmem) (hsorted_mem a hmem).1
    rw [h1, h2]

theorem c10_amended_witness :
    (updateLibrary g0 ((updateLibrary g0 [] [swC10]).1) [swC10]).1 =
      (updateLibrary g0 [] [swC10]).1 ∧
    newBooksOf g0 ((updateLibrary g0 [] [swC10]).1) [swC10] = [] :=
  c10_amended g0 [] [swC10] (fun _ _ _ => rfl) (by decide) (by decide) (by decide)

end BooksSync
